import Mathlib

/-!
Verification development for the retrieval engine of this repository
(`rag/app/vector_store.py`, `rag/app/document_processor.py`,
`rag/app/embedding_service.py`).

The Python code is shallowly embedded: machine floats are modelled as
exact rationals (`ℚ`), Python exceptions as an explicit error type
returned through `Except`, and the mutable `VectorStore` object as a
value that each operation transforms.  An operation that raises returns
`Except.error` carrying both the error kind and the store as it is at the
moment of the raise, so that "state unchanged on failure" is a provable
statement rather than an artifact of the embedding.

External collaborators that are not part of the repository are modelled
from their documented behaviour and clearly marked:
  * the faiss `IndexFlatL2` similarity structure (exact squared-L2
    k-nearest-neighbour search);
  * NLTK's `sent_tokenize` (the chunker is modelled on the sentence list
    it produces);
  * the HuggingFace tokenizer/encoder pair used by `EmbeddingService`
    (modelled as an abstract encoding capability, as §6 of the design
    describes it).
-/

/-- A dense vector, `np.ndarray` of floats modelled as a list of exact
rationals. -/
abbrev Vec := List ℚ

/-- Squared Euclidean distance, the metric of faiss `IndexFlatL2`.
Both vectors are expected to share the index dimension; `zipWith`
truncates to the common length. -/
def sqDist (u v : Vec) : ℚ :=
  (List.zipWith (fun a b => (a - b) ^ 2) u v).sum

/-- Model of the external faiss `IndexFlatL2` object (not code of this
repository): the recorded vector dimension `d` and the stored vectors in
insertion order.  The faiss id of a vector is its position in `vecs`. -/
structure FaissIndexFlatL2 where
  d : Nat
  vecs : List Vec
deriving DecidableEq

/-- Error kinds of the spec's taxonomy (spec §7), abstracting the
concrete Python exceptions the source raises:
  * `dimensionMismatch`: the `ValueError` raised by
    `VectorStore.add_embeddings` on a batch-length mismatch, and the
    assertion failures of the faiss Python wrapper when a vector or
    query length differs from the index dimension (the spec names all of
    these `DimensionMismatchError`);
  * `invalidArgument`: the faiss wrapper's `assert k > 0` on search
    (spec: `InvalidArgumentError`);
  * `corruptIndex`: the file-not-found errors of `faiss.read_index` /
    `open` on load (spec: `CorruptIndexError`);
  * `shapeError`: numpy's failure to build a 2-d float array from an
    empty batch (`n, d = x.shape` cannot unpack);
  * `keyError`: a Python `KeyError` from `self.document_map[int(idx)]`. -/
inductive VSError where
  | dimensionMismatch
  | invalidArgument
  | corruptIndex
  | shapeError
  | keyError
deriving DecidableEq

/-- State of a `VectorStore` object (`vector_store.py`, lines 8-13):
`dimension`, the faiss index, the `document_map` dict (an association
list keyed by assigned id, insertion order preserved), and `current_id`
(the spec's `next_id`).  Payloads have an abstract type `α`. -/
structure VectorStore (α : Type) where
  dimension : Nat
  index : FaissIndexFlatL2
  document_map : List (Nat × α)
  current_id : Nat
deriving DecidableEq

/-- `VectorStore.__init__` (`vector_store.py`, lines 9-13): an empty
faiss index of the given dimension, empty `document_map`, `current_id`
0. -/
def VectorStore.init (α : Type) (dimension : Nat) : VectorStore α :=
  ⟨dimension, ⟨dimension, []⟩, [], 0⟩

/-- `VectorStore.add_embeddings` (`vector_store.py`, lines 15-29).
Check order follows the source: the explicit batch-length check raises
first (`ValueError`, spec kind `dimensionMismatch`); then
`np.array(embeddings).astype("float32")` plus the faiss wrapper's
`add` fail on an empty batch (`shapeError`) or whenever some vector's
length differs from the index's recorded dimension (numpy ragged-array
error or faiss `assert d == self.d`, both of spec kind
`dimensionMismatch`).  Only after all checks pass are the vectors
appended to the faiss index, the payloads inserted into `document_map`
under ids `current_id + i`, and `current_id` advanced.  The error case
carries the store at the moment of the raise; every raise in the source
happens before any mutation, which the proofs below make explicit. -/
def VectorStore.add_embeddings {α : Type} (s : VectorStore α)
    (embeddings : List Vec) (metadata : List α) :
    Except (VSError × VectorStore α) (VectorStore α) :=
  if embeddings.length ≠ metadata.length then
    .error (.dimensionMismatch, s)
  else if embeddings.isEmpty then
    .error (.shapeError, s)
  else if ∀ v ∈ embeddings, v.length = s.index.d then
    .ok { s with
      index := ⟨s.index.d, s.index.vecs ++ embeddings⟩
      document_map := s.document_map ++
        (metadata.enum.map (fun p => (s.current_id + p.1, p.2)))
      current_id := s.current_id + embeddings.length }
  else
    .error (.dimensionMismatch, s)

/-- Nearest-first ordering used by the faiss `IndexFlatL2` search:
vector `i` precedes vector `j` when its squared distance to the query is
smaller, with ties broken by ascending id.  Strict version. -/
def nnLt (vecs : List Vec) (q : Vec) (i j : Nat) : Prop :=
  sqDist q (vecs.getD i []) < sqDist q (vecs.getD j []) ∨
    (sqDist q (vecs.getD i []) = sqDist q (vecs.getD j []) ∧ i < j)

/-- Non-strict version of `nnLt`, the total preorder the k-nearest
selection sorts by. -/
def nnLe (vecs : List Vec) (q : Vec) (i j : Nat) : Prop :=
  sqDist q (vecs.getD i []) < sqDist q (vecs.getD j []) ∨
    (sqDist q (vecs.getD i []) = sqDist q (vecs.getD j []) ∧ i ≤ j)

instance nnLe.decRel (vecs : List Vec) (q : Vec) : DecidableRel (nnLe vecs q) :=
  fun _ _ => inferInstanceAs (Decidable (_ ∨ _))

instance nnLe.total (vecs : List Vec) (q : Vec) : IsTotal Nat (nnLe vecs q) := by
  constructor
  intro i j
  rcases lt_trichotomy (sqDist q (vecs.getD i [])) (sqDist q (vecs.getD j [])) with h | h | h
  · exact Or.inl (Or.inl h)
  · rcases Nat.le_total i j with hij | hij
    · exact Or.inl (Or.inr ⟨h, hij⟩)
    · exact Or.inr (Or.inr ⟨h.symm, hij⟩)
  · exact Or.inr (Or.inl h)

instance nnLe.trans (vecs : List Vec) (q : Vec) : IsTrans Nat (nnLe vecs q) := by
  constructor
  rintro a b c (hab | ⟨hab, hab2⟩) (hbc | ⟨hbc, hbc2⟩)
  · exact Or.inl (lt_trans hab hbc)
  · exact Or.inl (hbc ▸ hab)
  · exact Or.inl (hab ▸ hbc)
  · exact Or.inr ⟨hab.trans hbc, le_trans hab2 hbc2⟩

/-- Model of `faiss.IndexFlatL2.search` restricted to a single query
(the source always passes a 1×d batch): the ids of the up-to-`k`
stored vectors nearest to `q` in squared Euclidean distance, ascending,
ties broken by ascending id.  When fewer than `k` vectors are stored,
faiss pads the id row with `-1`; the source loop skips those entries
(`if idx != -1`), so the model returns only the valid ids. -/
def knn (vecs : List Vec) (q : Vec) (k : Nat) : List Nat :=
  (List.insertionSort (nnLe vecs q) (List.range vecs.length)).take k

/-- The result-building loop of `VectorStore.search` (`vector_store.py`,
lines 35-40): for each returned id, look the payload up in
`document_map` (a missing key raises `KeyError`, aborting the whole
call) and pair a copy of it with the reported distance. -/
def buildResults {α : Type} (dm : List (Nat × α)) (g : Nat → ℚ) :
    List Nat → Except VSError (List (α × ℚ))
  | [] => .ok []
  | i :: rest =>
    match dm.lookup i with
    | none => .error .keyError
    | some meta =>
      match buildResults dm g rest with
      | .error e => .error e
      | .ok results => .ok ((meta, g i) :: results)

/-- `VectorStore.search` (`vector_store.py`, lines 31-42).  The faiss
wrapper checks the reshaped query's width against the index dimension
(`assert d == self.d`, spec kind `dimensionMismatch`) and then
`assert k > 0` (spec kind `invalidArgument`); `k` is a Python int, so it
is modelled as `Int`.  On success the k-nearest ids are mapped to
(payload, distance) pairs.  The source method never mutates the store,
which the embedding reflects by not returning a store at all. -/
def VectorStore.search {α : Type} (s : VectorStore α) (q : Vec) (k : Int) :
    Except VSError (List (α × ℚ)) :=
  if q.length ≠ s.index.d then .error .dimensionMismatch
  else if k ≤ 0 then .error .invalidArgument
  else buildResults s.document_map (fun i => sqDist q (s.index.vecs.getD i []))
    (knn s.index.vecs q k.toNat)

/-- Content of the `.pkl` companion artifact written by
`VectorStore.save` (`vector_store.py`, lines 52-60): the pickled dict
`{document_map, current_id, dimension}`. -/
structure PklData (α : Type) where
  document_map : List (Nat × α)
  current_id : Nat
  dimension : Nat
deriving DecidableEq

/-- The on-disk state the store persists to: the `<path>.index` files
(serialized faiss indexes, which record their own dimension) and the
`<path>.pkl` files, both keyed by the base path and modelled as
association lists where a write prepends (newest binding wins). -/
structure Disk (α : Type) where
  indexFiles : List (String × FaissIndexFlatL2)
  pklFiles : List (String × PklData α)
deriving DecidableEq

/-- A disk holding no artifacts. -/
def Disk.empty (α : Type) : Disk α := ⟨[], []⟩

/-- The `.pkl` payload `save` writes for a store. -/
def pklOf {α : Type} (s : VectorStore α) : PklData α :=
  ⟨s.document_map, s.current_id, s.dimension⟩

/-- `VectorStore.save` (`vector_store.py`, lines 44-60) as observed on
disk after full completion: `faiss.write_index` writes `<path>.index`,
then `pickle.dump` writes `<path>.pkl`.  Both writes go directly to the
final paths; there is no temporary file and no rename in the source. -/
def saveDisk {α : Type} (s : VectorStore α) (d : Disk α) (path : String) :
    Disk α :=
  ⟨(path, s.index) :: d.indexFiles, (path, pklOf s) :: d.pklFiles⟩

/-- Prefix of `VectorStore.save` after its first `n` file writes,
modelling a process crash between the two writes: step 0 is before any
write, step 1 is after `faiss.write_index` has replaced `<path>.index`,
step 2 (and beyond) is the completed save. -/
def saveSteps {α : Type} (s : VectorStore α) (d : Disk α) (path : String) :
    Nat → Disk α
  | 0 => d
  | 1 => ⟨(path, s.index) :: d.indexFiles, d.pklFiles⟩
  | _ + 2 => saveDisk s d path

/-- `VectorStore.load` (`vector_store.py`, lines 62-78):
`faiss.read_index` reads `<path>.index` (a missing file raises, spec
kind `corruptIndex`), then the `.pkl` file is unpickled (likewise), and
a new instance is assembled verbatim from the artifacts.  The source
performs no validation whatsoever: the recorded dimension is not checked
against the faiss index and the vector count is not checked against the
payload count.  A previously in-memory store is untouched: `load` is a
classmethod constructing a fresh instance. -/
def loadStore {α : Type} (d : Disk α) (path : String) :
    Except VSError (VectorStore α) :=
  match d.indexFiles.lookup path with
  | none => .error .corruptIndex
  | some idx =>
    match d.pklFiles.lookup path with
    | none => .error .corruptIndex
    | some pk => .ok ⟨pk.dimension, idx, pk.document_map, pk.current_id⟩

/-- Representation invariant of a well-formed store: the faiss index and
`document_map` have the same size, the ids in `document_map` are exactly
the faiss positions `0 .. n-1` in order, `current_id` sits at the
high-water mark, the faiss index records the store's dimension, and
every stored vector has that length. -/
def StoreInv {α : Type} (s : VectorStore α) : Prop :=
  s.index.vecs.length = s.document_map.length ∧
  s.document_map.map Prod.fst = List.range s.document_map.length ∧
  s.current_id = s.document_map.length ∧
  s.index.d = s.dimension ∧
  ∀ v ∈ s.index.vecs, v.length = s.dimension

instance StoreInv.dec {α : Type} [DecidableEq α] (s : VectorStore α) :
    Decidable (StoreInv s) := by
  unfold StoreInv
  infer_instance

/-- States reachable by the public operations, starting from a freshly
constructed store and an empty artifact directory.  `add_embeddings` is
covered both when it succeeds and when it raises (the raise leaves the
store it carries), `save` extends the disk, and a successful `load`
replaces the in-memory store by the loaded one.  `search` never changes
the store (its embedding does not even return one), so it needs no
constructor. -/
inductive Reach (α : Type) : VectorStore α → Disk α → Prop where
  | init (dim : Nat) : Reach α (VectorStore.init α dim) (Disk.empty α)
  | addOk {s d e m s'} : Reach α s d →
      VectorStore.add_embeddings s e m = .ok s' → Reach α s' d
  | addErr {s d e m err s'} : Reach α s d →
      VectorStore.add_embeddings s e m = .error (err, s') → Reach α s' d
  | saveOp {s d} (p : String) : Reach α s d → Reach α s (saveDisk s d p)
  | loadOk {s d p s'} : Reach α s d →
      loadStore d p = .ok s' → Reach α s' d

/-- Invariant of the artifact directory: any base path at which both
companion artifacts are present reassembles into a store satisfying
`StoreInv`. -/
def DiskInv {α : Type} (d : Disk α) : Prop :=
  ∀ p idx pk, d.indexFiles.lookup p = some idx →
    d.pklFiles.lookup p = some pk →
    StoreInv ⟨pk.dimension, idx, pk.document_map, pk.current_id⟩

/-- Configuration of `DocumentProcessor.__init__`
(`document_processor.py`, lines 10-13): `chunk_size` (default 512) and
`chunk_overlap` (default 50). -/
structure DocumentProcessor where
  chunk_size : Nat
  chunk_overlap : Nat
deriving DecidableEq

/-- Python's `" ".join(current_chunk)`. -/
def joinSp (l : List String) : String := String.intercalate " " l

/-- The sentence-accumulation loop of `DocumentProcessor._chunk_text`
(`document_processor.py`, lines 44-57), with the loop state (`chunks` is
built by the recursion; `current_chunk` and `current_length` are the
accumulators).  `current_length` is the running total of the buffered
sentences' character counts, exactly as the source computes it (joining
spaces are not counted).  The flush condition is the source's
`current_length + sentence_length > self.chunk_size`, and a remaining
buffer is flushed after the loop. -/
def chunkLoop (size : Nat) : List String → List String → Nat → List String
  | [], current, _ => if current.isEmpty then [] else [joinSp current]
  | s :: rest, current, curLen =>
    if size < curLen + s.length then
      if current.isEmpty then chunkLoop size rest [s] s.length
      else joinSp current :: chunkLoop size rest [s] s.length
    else chunkLoop size rest (current ++ [s]) (curLen + s.length)

/-- `DocumentProcessor._chunk_text` (`document_processor.py`, lines
37-59) on the sentence list produced by NLTK's `sent_tokenize` (an
external collaborator; on empty text it returns the empty list).  Note
that `chunk_overlap` does not occur anywhere in the loop. -/
def DocumentProcessor.chunk_text (p : DocumentProcessor)
    (sentences : List String) : List String :=
  chunkLoop p.chunk_size sentences [] 0

/-- Total character count of the buffered sentences, the buffer measure
of the claimed accumulation algorithm. -/
def bufLen (buffer : List String) : Nat := (buffer.map String.length).sum

/-- The chunking algorithm as the spec words it (spec §4.1): accumulate
sentences into a buffer; when the buffer is non-empty and appending the
next sentence would push the buffer's character count beyond
`chunk_size`, flush the buffer as one chunk and start a new buffer with
that sentence; flush any remainder at end of input. -/
def chunkSpecLoop (size : Nat) : List String → List String → List String
  | [], buffer => if buffer.isEmpty then [] else [joinSp buffer]
  | s :: rest, buffer =>
    if ¬ buffer.isEmpty ∧ size < bufLen buffer + s.length then
      joinSp buffer :: chunkSpecLoop size rest [s]
    else chunkSpecLoop size rest (buffer ++ [s])

/-- Entry point of the spec-worded chunker. -/
def chunkTextSpec (size : Nat) (sentences : List String) : List String :=
  chunkSpecLoop size sentences []

/-- Model of the encoding stack of `EmbeddingService`
(`embedding_service.py`): the HuggingFace tokenizer and transformer are
external collaborators, abstracted as the spec's injected encoding
capability (spec §6, §9).  `hidden` is the model's hidden size,
`tokenizeOne` the per-text tokenization (truncation at 512 tokens is a
per-text operation and so is folded into it), `padId` the pad token,
`modelFun` the transformer on a padded batch of token-id rows (one list
of per-position hidden vectors per text), `normalizeRow` the row-wise
L2 normalization `F.normalize(·, p=2, dim=1)` applied to one row. -/
structure Encoder where
  hidden : Nat
  padId : Nat
  tokenizeOne : String → List Nat
  modelFun : List (List Nat) → List (List (List ℚ))
  normalizeRow : List ℚ → List ℚ

/-- Right-padding of a token row to batch length `L`, what
`self.tokenizer(texts, padding=True, ...)` does to each text. -/
def padTo (padId : Nat) (L : Nat) (ts : List Nat) : List Nat :=
  ts ++ List.replicate (L - ts.length) padId

/-- Length of the longest row, the padded batch width. -/
def maxLen (rows : List (List Nat)) : Nat :=
  rows.foldr (fun r acc => max r.length acc) 0

/-- Attention-mask row for a text with `len` real tokens in a batch of
width `L`: ones on the real positions, zeros on the padding. -/
def maskOf (L len : Nat) : List ℚ :=
  List.replicate len (1 : ℚ) ++ List.replicate (L - len) (0 : ℚ)

/-- `EmbeddingService._mean_pooling` (`embedding_service.py`, lines
14-21) on one batch row: component `h` of the pooled vector is the
mask-weighted sum of the per-position hidden vectors divided by
`torch.clamp(mask_sum, min=1e-9)`. -/
def meanPool (H : Nat) (tokenVecs : List (List ℚ)) (mask : List ℚ) :
    List ℚ :=
  (List.range H).map (fun h =>
    (∑ j ∈ Finset.range mask.length,
        (tokenVecs.getD j []).getD h 0 * mask.getD j 0) /
      max mask.sum (1 / 1000000000))

/-- `EmbeddingService.get_embeddings` (`embedding_service.py`, lines
23-39) on a list of texts: tokenize each text, pad the rows to the
longest, run the encoder, mean-pool each row under its attention mask,
and L2-normalize each pooled row. -/
def getEmbeddings (e : Encoder) (texts : List String) : List (List ℚ) :=
  let rows := texts.map e.tokenizeOne
  let L := maxLen rows
  let out := e.modelFun (rows.map (padTo e.padId L))
  (List.range texts.length).map (fun i =>
    e.normalizeRow (meanPool e.hidden (out.getD i [])
      (maskOf L ((rows.getD i []).length))))

/-- The masking property of an attention-masked transformer: on the real
(unpadded) positions of each row, the encoder's output depends only on
that row's own unpadded tokens, not on the batch it is padded into.
`g` names the batch-independent per-token outputs.  This is the property
of the external encoding capability that the source relies on; it is not
code of this repository. -/
def MaskLocal (e : Encoder) (g : List Nat → List (List ℚ)) : Prop :=
  ∀ (rows : List (List Nat)) (L i j : Nat),
    (rows.getD i []).length ≤ L → i < rows.length →
    j < (rows.getD i []).length →
    ((e.modelFun (rows.map (padTo e.padId L))).getD i []).getD j [] =
      (g (rows.getD i [])).getD j []

/-- Claim C2: an `add` call with a batch-length mismatch, or with any
vector whose length differs from the index dimension, fails with the
spec's `DimensionMismatchError` and leaves the similarity structure,
`document_map` and `next_id` exactly as they were: the error carries the
store unchanged, because every raise in the source happens before any
mutation. -/
theorem add_embeddings_rejects_and_preserves {α : Type} (s : VectorStore α)
    (e : List Vec) (m : List α) (hd : s.index.d = s.dimension)
    (h : e.length ≠ m.length ∨ ∃ v ∈ e, v.length ≠ s.dimension) :
    s.add_embeddings e m = .error (.dimensionMismatch, s) := by
  by_cases hlen : e.length ≠ m.length
  · unfold VectorStore.add_embeddings
    rw [if_pos hlen]
  · rcases h with h | ⟨v, hv, hne⟩
    · exact absurd h hlen
    · have hnonempty : e ≠ [] := by rintro rfl; cases hv
      have h2 : ¬ (e.isEmpty = true) := by
        simpa [List.isEmpty_iff] using hnonempty
      have h3 : ¬ ∀ w ∈ e, w.length = s.index.d := fun hall =>
        hne (hd ▸ hall v hv)
      unfold VectorStore.add_embeddings
      rw [if_neg hlen, if_neg h2, if_neg h3]

/-- Concrete instance of `add_embeddings_rejects_and_preserves`: adding
a 3-vector to a 2-dimensional store is rejected with the state intact. -/
theorem add_embeddings_rejects_and_preserves_witness :
    (VectorStore.init ℕ 2).index.d = (VectorStore.init ℕ 2).dimension ∧
    ([([1, 2, 3] : Vec)].length = [(7 : ℕ)].length ∨
      ∃ v ∈ [([1, 2, 3] : Vec)], v.length ≠ (VectorStore.init ℕ 2).dimension) ∧
    (VectorStore.init ℕ 2).add_embeddings [[1, 2, 3]] [7] =
      .error (.dimensionMismatch, VectorStore.init ℕ 2) :=
  ⟨rfl, Or.inr ⟨[1, 2, 3], List.mem_singleton.mpr rfl, by decide⟩,
    add_embeddings_rejects_and_preserves (VectorStore.init ℕ 2) [[1, 2, 3]]
      [7] rfl (Or.inr ⟨[1, 2, 3], List.mem_singleton.mpr rfl, by decide⟩)⟩

/-- Claim C8: `search` with `k ≤ 0` fails with the spec's
`InvalidArgumentError`, and `search` with a query whose length differs
from the index dimension fails with `DimensionMismatchError`; the store
is untouched in both cases (the embedding of `search` does not even
return a store, because the source method never assigns to `self`). -/
theorem search_rejects_invalid_args {α : Type} (s : VectorStore α)
    (q : Vec) (k : Int) (hd : s.index.d = s.dimension) :
    (q.length ≠ s.dimension → s.search q k = .error .dimensionMismatch) ∧
    (q.length = s.dimension → k ≤ 0 → s.search q k = .error .invalidArgument) := by
  constructor
  · intro hq
    unfold VectorStore.search
    rw [if_pos (hd ▸ hq)]
  · intro hq hk
    have h1 : ¬ (q.length ≠ s.index.d) := fun hne => hne (by rw [hq, hd])
    unfold VectorStore.search
    rw [if_neg h1, if_pos hk]

/-- Concrete instance of `search_rejects_invalid_args` on a fresh
3-dimensional store: a 1-long query and a `k = 0` search are both
rejected. -/
theorem search_rejects_invalid_args_witness :
    ([(1 : ℚ)].length ≠ (VectorStore.init ℕ 3).dimension ∧
      (VectorStore.init ℕ 3).search [1] 5 = .error .dimensionMismatch) ∧
    ((0 : Int) ≤ 0 ∧
      (VectorStore.init ℕ 3).search [1, 2, 3] 0 = .error .invalidArgument) :=
  ⟨⟨by decide, (search_rejects_invalid_args (VectorStore.init ℕ 3) [1] 5 rfl).1
      (by decide)⟩,
    ⟨by decide, (search_rejects_invalid_args (VectorStore.init ℕ 3) [1, 2, 3] 0
      rfl).2 (by decide) (by decide)⟩⟩

/-- Claim C4: `save(path)` followed by `load(path)` reconstructs a store
with identical `dimension`, `next_id` (`current_id`) and `document_map`,
and identical `search` results for every query and `k`; in fact the
loaded store is the saved store verbatim. -/
theorem save_load_roundtrip {α : Type} (s : VectorStore α) (d : Disk α)
    (p : String) :
    ∃ s', loadStore (saveDisk s d p) p = .ok s' ∧
      s'.dimension = s.dimension ∧ s'.current_id = s.current_id ∧
      s'.document_map = s.document_map ∧
      ∀ q k, s'.search q k = s.search q k := by
  refine ⟨s, ?_, rfl, rfl, rfl, fun q k => rfl⟩
  unfold loadStore saveDisk
  simp [List.lookup, pklOf]

/-- Artifacts that are mutually inconsistent: the serialized faiss index
is 3-dimensional and holds one vector, while the metadata artifact
records dimension 5, an empty `document_map`, and `current_id` 7. -/
def corruptArtifacts : Disk ℕ :=
  ⟨[("p", ⟨3, [[0, 0, 0]]⟩)], [("p", ⟨[], 7, 5⟩)]⟩

/-- The store `load` assembles from `corruptArtifacts` verbatim. -/
def loadedCorrupt : VectorStore ℕ := ⟨5, ⟨3, [[0, 0, 0]]⟩, [], 7⟩

/-- Counterexample to claim C6: `load` succeeds on artifacts whose
recorded dimension disagrees with the serialized faiss index and whose
vector count disagrees with the payload count — the source performs no
validation, so no `CorruptIndexError` is raised on structurally
inconsistent artifacts. -/
theorem load_accepts_corrupt_artifacts :
    loadStore corruptArtifacts "p" = .ok loadedCorrupt ∧
    loadedCorrupt.index.vecs.length ≠ loadedCorrupt.document_map.length ∧
    loadedCorrupt.index.d ≠ loadedCorrupt.dimension :=
  ⟨rfl, by decide, by decide⟩

/-- Amended claim C6: `load(path)` fails (with the error the spec's
taxonomy calls `CorruptIndexError`) exactly when a companion artifact is
missing; when both artifacts are present it succeeds unconditionally and
assembles their contents verbatim, performing no dimension or
count-consistency validation.  A previously in-memory store is left
untouched: `load` constructs a fresh instance and, in this embedding,
takes no store at all. -/
theorem load_missing_artifact_only {α : Type} (d : Disk α) (p : String) :
    ((d.indexFiles.lookup p = none ∨ d.pklFiles.lookup p = none) →
      loadStore d p = .error .corruptIndex) ∧
    (∀ idx pk, d.indexFiles.lookup p = some idx →
      d.pklFiles.lookup p = some pk →
      loadStore d p = .ok ⟨pk.dimension, idx, pk.document_map, pk.current_id⟩) := by
  constructor
  · intro h
    rcases h with h | h
    · unfold loadStore
      rw [h]
    · unfold loadStore
      rw [h]
      cases d.indexFiles.lookup p <;> rfl
  · intro idx pk h1 h2
    unfold loadStore
    rw [h1, h2]

/-- Concrete instance of `load_missing_artifact_only`: loading from an
empty artifact directory fails with the missing-artifact error. -/
theorem load_missing_artifact_only_witness :
    (Disk.empty ℕ).indexFiles.lookup "q" = none ∧
    loadStore (Disk.empty ℕ) "q" = .error .corruptIndex :=
  ⟨rfl, (load_missing_artifact_only (Disk.empty ℕ) "q").1 (Or.inl rfl)⟩

/-- A committed one-entry store, its on-disk artifacts, and a later
two-entry store whose save gets interrupted. -/
def storeBefore : VectorStore ℕ := ⟨1, ⟨1, [[1]]⟩, [(0, 5)], 1⟩

/-- The disk after `storeBefore.save("p")` completed. -/
def diskCommitted : Disk ℕ := saveDisk storeBefore (Disk.empty ℕ) "p"

/-- The store whose interrupted save exhibits the corruption. -/
def storeAfter : VectorStore ℕ := ⟨1, ⟨1, [[1], [2]]⟩, [(0, 5), (1, 6)], 2⟩

/-- The mixed state `load` assembles after a crash between the two
writes of `storeAfter.save("p")`: the new faiss artifact paired with the
old metadata artifact. -/
def mixedStore : VectorStore ℕ := ⟨1, ⟨1, [[1], [2]]⟩, [(0, 5)], 1⟩

/-- Counterexample to claim C7: `save` is not crash-atomic.  After the
first of its two direct writes (no temporary file, no rename), the disk
is neither the previously committed state nor the completed new state,
and loading it yields a store whose vector count disagrees with its
payload count — the previously committed on-disk state has been
corrupted by the interrupted save. -/
theorem save_crash_corrupts_committed_state :
    saveSteps storeAfter diskCommitted "p" 1 ≠ diskCommitted ∧
    saveSteps storeAfter diskCommitted "p" 1 ≠
      saveSteps storeAfter diskCommitted "p" 2 ∧
    loadStore (saveSteps storeAfter diskCommitted "p" 1) "p" = .ok mixedStore ∧
    mixedStore.index.vecs.length ≠ mixedStore.document_map.length :=
  ⟨by decide, by decide, rfl, by decide⟩

/-- Amended claim C7: `save(path)` performs two direct writes to the
final artifact paths, `<path>.index` first and `<path>.pkl` second, with
no temporary location and no rename.  Whenever the new artifacts differ
from the committed ones, the state after the first write (the crash
point) differs both from the previously committed disk and from the
completed save, so a crash between the writes leaves a partially
overwritten, mixed on-disk state. -/
theorem save_writes_directly_not_atomic {α : Type} (s : VectorStore α)
    (d : Disk α) (p : String)
    (h1 : d.indexFiles.lookup p ≠ some s.index)
    (h2 : d.pklFiles.lookup p ≠ some (pklOf s)) :
    saveSteps s d p 1 ≠ d ∧
    saveSteps s d p 1 ≠ saveSteps s d p 2 ∧
    saveSteps s d p 2 = saveDisk s d p := by
  refine ⟨?_, ?_, rfl⟩
  · intro hEq
    apply h1
    have h3 := congrArg (fun x : Disk α => x.indexFiles.lookup p) hEq
    simpa [saveSteps, List.lookup] using h3.symm
  · intro hEq
    apply h2
    have h3 := congrArg (fun x : Disk α => x.pklFiles.lookup p) hEq
    simpa [saveSteps, saveDisk, List.lookup] using h3

/-- Concrete instance of `save_writes_directly_not_atomic` at the
crash scenario of `save_crash_corrupts_committed_state`. -/
theorem save_writes_directly_not_atomic_witness :
    diskCommitted.indexFiles.lookup "p" ≠ some storeAfter.index ∧
    diskCommitted.pklFiles.lookup "p" ≠ some (pklOf storeAfter) ∧
    saveSteps storeAfter diskCommitted "p" 1 ≠ diskCommitted :=
  ⟨by decide, by decide,
    (save_writes_directly_not_atomic storeAfter diskCommitted "p"
      (by decide) (by decide)).1⟩

/-- The buffer measure distributes over flushing: appending one sentence
adds its character count. -/
lemma bufLen_append_singleton (l : List String) (s : String) :
    bufLen (l ++ [s]) = bufLen l + s.length := by
  simp [bufLen]

/-- The source loop, run with its incremental `current_length`
accumulator equal to the buffer measure, coincides with the spec-worded
recursion. -/
lemma chunkLoop_eq_spec (size : Nat) :
    ∀ (rest buffer : List String),
      chunkLoop size rest buffer (bufLen buffer) = chunkSpecLoop size rest buffer := by
  intro rest
  induction rest with
  | nil => intro buffer; rfl
  | cons s rest ih =>
    intro buffer
    by_cases hb : buffer.isEmpty = true
    · have hb' : buffer = [] := by simpa [List.isEmpty_iff] using hb
      subst hb'
      show chunkLoop size (s :: rest) [] 0 = chunkSpecLoop size (s :: rest) []
      simp only [chunkLoop, chunkSpecLoop]
      rw [if_neg (show ¬ (¬ (List.isEmpty ([] : List String) = true) ∧
        size < bufLen [] + s.length) from fun hc => hc.1 rfl)]
      by_cases hex : size < 0 + s.length
      · rw [if_pos hex,
          if_pos (show ([] : List String).isEmpty = true from rfl)]
        exact ih [s]
      · rw [if_neg hex, Nat.zero_add]
        exact ih ([] ++ [s])
    · show chunkLoop size (s :: rest) buffer (bufLen buffer) =
        chunkSpecLoop size (s :: rest) buffer
      simp only [chunkLoop, chunkSpecLoop]
      by_cases hex : size < bufLen buffer + s.length
      · rw [if_pos hex, if_neg hb, if_pos (⟨hb, hex⟩ :
          ¬ (buffer.isEmpty = true) ∧ size < bufLen buffer + s.length)]
        exact congrArg _ (ih [s])
      · rw [if_neg hex, if_neg
          (show ¬ (¬ (buffer.isEmpty = true) ∧ size < bufLen buffer + s.length)
            from fun hc => hex hc.2), ← bufLen_append_singleton]
        exact ih (buffer ++ [s])

/-- A buffer holding a single over-long sentence is flushed as its own
chunk no matter what follows. -/
lemma long_buffer_own_chunk (size : Nat) (s : String) (hs : size < s.length) :
    ∀ rest, s ∈ chunkSpecLoop size rest [s] := by
  intro rest
  cases rest with
  | nil =>
    show s ∈ (if ([s] : List String).isEmpty = true then [] else [joinSp [s]])
    rw [if_neg (by simp)]
    have hj : joinSp [s] = s := rfl
    rw [hj]
    exact List.mem_singleton.mpr rfl
  | cons t rest =>
    simp only [chunkSpecLoop]
    rw [if_pos ⟨by simp, by
      have : bufLen [s] = s.length := by simp [bufLen]
      omega⟩]
    have hj : joinSp [s] = s := rfl
    rw [hj]
    exact List.mem_cons_self s _

/-- Any sentence longer than `chunk_size` ends up as an element of the
produced chunk list (its own chunk), from any starting buffer. -/
lemma long_sentence_mem_spec (size : Nat) (s : String) (hs : size < s.length) :
    ∀ (sentences buffer : List String), s ∈ sentences →
      s ∈ chunkSpecLoop size sentences buffer := by
  intro sentences
  induction sentences with
  | nil => intro buffer h; cases h
  | cons t rest ih =>
    intro buffer hmem
    rcases List.mem_cons.mp hmem with rfl | hmem'
    · by_cases hb : buffer.isEmpty = true
      · have hb' : buffer = [] := by simpa [List.isEmpty_iff] using hb
        subst hb'
        simp only [chunkSpecLoop]
        rw [if_neg (by simp)]
        exact long_buffer_own_chunk size s hs rest
      · simp only [chunkSpecLoop]
        rw [if_pos ⟨hb, by omega⟩]
        exact List.mem_cons_of_mem _ (long_buffer_own_chunk size s hs rest)
    · simp only [chunkSpecLoop]
      by_cases hc : ¬ buffer.isEmpty = true ∧ size < bufLen buffer + t.length
      · rw [if_pos hc]
        exact List.mem_cons_of_mem _ (ih [t] hmem')
      · rw [if_neg hc]
        exact ih (buffer ++ [t]) hmem'

/-- Claim C5: `_chunk_text` implements the claimed sentence-accumulation
algorithm over the sentence list produced by the external sentence
splitter: it equals the spec-worded recursion (flush when the non-empty
buffer would exceed `chunk_size`, start a new buffer with the offending
sentence, flush the remainder at end of input); the empty sentence list
(empty text) yields no chunks; a single sentence shorter than
`chunk_size` yields exactly that one chunk; and a sentence longer than
`chunk_size` always appears as its own chunk.  The buffer's character
length is, as in the source, the character count of the buffered
sentences (joining spaces not counted). -/
theorem chunk_text_follows_accumulation_spec (p : DocumentProcessor) :
    (∀ sentences, p.chunk_text sentences = chunkTextSpec p.chunk_size sentences) ∧
    p.chunk_text [] = [] ∧
    (∀ s : String, s.length < p.chunk_size → p.chunk_text [s] = [s]) ∧
    (∀ sentences (s : String), s ∈ sentences → p.chunk_size < s.length →
      s ∈ p.chunk_text sentences) := by
  have hspec : ∀ sentences,
      p.chunk_text sentences = chunkTextSpec p.chunk_size sentences :=
    fun sentences => chunkLoop_eq_spec p.chunk_size sentences []
  refine ⟨hspec, rfl, ?_, ?_⟩
  · intro s hs
    show chunkLoop p.chunk_size [s] [] 0 = [s]
    simp only [chunkLoop]
    rw [if_neg (by omega)]
    rfl
  · intro sentences s hmem hlong
    rw [hspec]
    exact long_sentence_mem_spec p.chunk_size s hlong sentences [] hmem

/-- Concrete instance of `chunk_text_follows_accumulation_spec` with the
default configuration: a single short sentence is one chunk, and an
over-long sentence in a two-sentence input is its own chunk. -/
theorem chunk_text_follows_accumulation_spec_witness :
    ("hi".length < 512 ∧
      DocumentProcessor.chunk_text ⟨512, 50⟩ ["hi"] = ["hi"]) ∧
    ((3 : Nat) < "abcde".length ∧
      "abcde" ∈ DocumentProcessor.chunk_text ⟨3, 50⟩ ["ab", "abcde"]) :=
  ⟨⟨by decide, (chunk_text_follows_accumulation_spec ⟨512, 50⟩).2.2.1 "hi"
      (by decide)⟩,
    ⟨by decide, (chunk_text_follows_accumulation_spec ⟨3, 50⟩).2.2.2
      ["ab", "abcde"] "abcde" (by decide) (by decide)⟩⟩

/-- Counterexample to claim C9: with the default `chunk_overlap = 50`,
a two-chunk split carries nothing between chunks — for every positive
length `n`, the trailing `n` characters of the first chunk differ from
the leading `n` characters of the second, so no trailing characters of a
flushed chunk are carried into the start of the next chunk. -/
theorem chunk_overlap_counterexample :
    DocumentProcessor.chunk_text ⟨5, 50⟩ ["aaaa", "bbbb"] = ["aaaa", "bbbb"] ∧
    (∀ n ∈ List.range 5, 0 < n →
      "bbbb".data.take n ≠ "aaaa".data.drop (4 - n)) := by
  constructor
  · rfl
  · decide

/-- Amended claim C9: `chunk_overlap` is accepted as configuration
(default 50) but is never applied: the chunker's output does not depend
on it at all, and no characters are carried over between consecutive
chunks. -/
theorem chunk_overlap_not_applied (size o1 o2 : Nat)
    (sentences : List String) :
    DocumentProcessor.chunk_text ⟨size, o1⟩ sentences =
      DocumentProcessor.chunk_text ⟨size, o2⟩ sentences := rfl

/-- Inversion of a successful `add_embeddings`: all three checks passed
and the result is the source's batch append. -/
lemma add_embeddings_ok_inv {α : Type} {s : VectorStore α} {e : List Vec}
    {m : List α} {s' : VectorStore α} (h : s.add_embeddings e m = .ok s') :
    e.length = m.length ∧ e ≠ [] ∧ (∀ v ∈ e, v.length = s.index.d) ∧
    s' = { s with
      index := ⟨s.index.d, s.index.vecs ++ e⟩
      document_map := s.document_map ++
        (m.enum.map (fun p => (s.current_id + p.1, p.2)))
      current_id := s.current_id + e.length } := by
  unfold VectorStore.add_embeddings at h
  split at h
  · exact Except.noConfusion h
  · split at h
    · exact Except.noConfusion h
    · split at h
      · rename_i h1 h2 h3
        injection h with h4
        refine ⟨not_not.mp h1, ?_, h3, h4.symm⟩
        simpa [List.isEmpty_iff] using h2
      · exact Except.noConfusion h

/-- A failing `add_embeddings` carries the store unchanged: every raise
in the source happens before any mutation. -/
lemma add_embeddings_err_inv {α : Type} {s : VectorStore α} {e : List Vec}
    {m : List α} {err : VSError} {s' : VectorStore α}
    (h : s.add_embeddings e m = .error (err, s')) : s' = s := by
  unfold VectorStore.add_embeddings at h
  split at h
  · injection h with h'
    exact congrArg Prod.snd h' |>.symm
  · split at h
    · injection h with h'
      exact congrArg Prod.snd h' |>.symm
    · split at h
      · exact Except.noConfusion h
      · injection h with h'
        exact congrArg Prod.snd h' |>.symm

/-- Inversion of a successful `loadStore`: both artifacts were present
and the result assembles them verbatim. -/
lemma loadStore_ok_inv {α : Type} {d : Disk α} {p : String}
    {s' : VectorStore α} (h : loadStore d p = .ok s') :
    ∃ idx pk, d.indexFiles.lookup p = some idx ∧
      d.pklFiles.lookup p = some pk ∧
      s' = ⟨pk.dimension, idx, pk.document_map, pk.current_id⟩ := by
  unfold loadStore at h
  cases h1 : d.indexFiles.lookup p with
  | none => rw [h1] at h; exact Except.noConfusion h
  | some idx =>
    rw [h1] at h
    cases h2 : d.pklFiles.lookup p with
    | none =>
      simp only [h2] at h
      exact Except.noConfusion h
    | some pk =>
      simp only [h2] at h
      injection h with h3
      exact ⟨idx, pk, rfl, rfl, h3.symm⟩

/-- Every reachable configuration satisfies the store invariant, and
every artifact pair on its disk reassembles into an invariant store. -/
lemma reach_inv {α : Type} {s : VectorStore α} {d : Disk α}
    (h : Reach α s d) : StoreInv s ∧ DiskInv d := by
  induction h with
  | init dim =>
    refine ⟨⟨rfl, rfl, rfl, rfl, by simp [VectorStore.init]⟩, ?_⟩
    intro p idx pk h1 _
    exact Option.noConfusion h1
  | @addOk s1 d1 e m s2 hre hadd ih =>
    obtain ⟨⟨c1, c2, c3, c4, c5⟩, hdsk⟩ := ih
    obtain ⟨hlen, hne, hall, hs'⟩ := add_embeddings_ok_inv hadd
    subst hs'
    refine ⟨⟨?_, ?_, ?_, c4, ?_⟩, hdsk⟩
    · simp only [List.length_append, List.length_map, List.enum_length]
      omega
    · have hfst : (m.enum.map (fun q => (s1.current_id + q.1, q.2))).map
          Prod.fst = (List.range m.length).map (fun x => s1.current_id + x) := by
        rw [List.map_map, ← List.enum_map_fst m, List.map_map]
        rfl
      rw [List.map_append, c2, hfst]
      simp only [List.length_append, List.length_map, List.enum_length]
      rw [c3, List.range_add]
    · simp only [List.length_append, List.length_map, List.enum_length]
      omega
    · intro v hv
      rcases List.mem_append.mp hv with hv | hv
      · exact c5 v hv
      · exact c4 ▸ hall v hv
  | @addErr s1 d1 e m err s2 hre hadd ih =>
    have := add_embeddings_err_inv hadd
    subst this
    exact ih
  | @saveOp s1 d1 p hre ih =>
    obtain ⟨hs, hdsk⟩ := ih
    refine ⟨hs, ?_⟩
    intro p' idx pk h1 h2
    by_cases hp : p' = p
    · subst hp
      simp only [saveDisk, List.lookup, beq_self_eq_true,
        Option.some.injEq] at h1 h2
      subst h1
      subst h2
      exact hs
    · have hp' : (p' == p) = false := beq_eq_false_iff_ne.mpr hp
      simp only [saveDisk, List.lookup, hp'] at h1 h2
      exact hdsk p' idx pk h1 h2
  | @loadOk s1 d1 p s2 hre hload ih =>
    obtain ⟨hs, hdsk⟩ := ih
    obtain ⟨idx, pk, h1, h2, hs'⟩ := loadStore_ok_inv hload
    subst hs'
    exact ⟨hdsk _ _ _ h1 h2, hdsk⟩

/-- Claim C3: in every configuration reachable by `add`, `search`,
`save` and `load` calls (failing ones included) from a fresh store and
an empty artifact directory, the faiss index holds exactly as many
vectors as `document_map` holds payloads, the assigned ids are exactly
the faiss positions `0 .. n-1` (one payload per stored vector and vice
versa), every assigned id is below the `current_id` high-water mark (so
ids are never reused, including after a `load`), and a successful `add`
appends payloads under the consecutive ids `current_id + 0, ...,
current_id + batch-1` and advances `current_id` by the batch size. -/
theorem reachable_state_consistent {α : Type} (s : VectorStore α)
    (d : Disk α) (h : Reach α s d) :
    s.index.vecs.length = s.document_map.length ∧
    s.document_map.map Prod.fst = List.range s.document_map.length ∧
    (∀ i ∈ s.document_map.map Prod.fst, i < s.current_id) ∧
    (∀ (e : List Vec) (m : List α) s', s.add_embeddings e m = .ok s' →
      s'.document_map = s.document_map ++
        (m.enum.map (fun p => (s.current_id + p.1, p.2))) ∧
      s'.current_id = s.current_id + e.length) := by
  obtain ⟨⟨c1, c2, c3, c4, c5⟩, hdsk⟩ := reach_inv h
  refine ⟨c1, c2, ?_, ?_⟩
  · intro i hi
    rw [c2] at hi
    rw [c3]
    exact List.mem_range.mp hi
  · intro e m s' hadd
    obtain ⟨hlen, hne, hall, hs'⟩ := add_embeddings_ok_inv hadd
    subst hs'
    exact ⟨rfl, rfl⟩

/-- The store reached by one successful `add` of one 1-dimensional
vector into a fresh store. -/
def reachedStore : VectorStore ℕ := ⟨1, ⟨1, [[3]]⟩, [(0, 7)], 1⟩

/-- Concrete instance of `reachable_state_consistent` after one `add`
on a fresh 1-dimensional store. -/
theorem reachable_state_consistent_witness :
    Reach ℕ reachedStore (Disk.empty ℕ) ∧
    (reachedStore.index.vecs.length = reachedStore.document_map.length ∧
    reachedStore.document_map.map Prod.fst =
      List.range reachedStore.document_map.length ∧
    (∀ i ∈ reachedStore.document_map.map Prod.fst,
      i < reachedStore.current_id) ∧
    (∀ (e : List Vec) (m : List ℕ) s',
      reachedStore.add_embeddings e m = .ok s' →
      s'.document_map = reachedStore.document_map ++
        (m.enum.map (fun p => (reachedStore.current_id + p.1, p.2))) ∧
      s'.current_id = reachedStore.current_id + e.length)) := by
  have h0 : (VectorStore.init ℕ 1).add_embeddings [[3]] [7] =
      .ok reachedStore := rfl
  have hr : Reach ℕ reachedStore (Disk.empty ℕ) :=
    Reach.addOk (Reach.init 1) h0
  exact ⟨hr, reachable_state_consistent reachedStore (Disk.empty ℕ) hr⟩

/-- A non-strict nearest-first comparison between distinct ids is
strict. -/
lemma nnLe_ne_lt {vecs : List Vec} {q : Vec} {i j : Nat}
    (h : nnLe vecs q i j) (hne : i ≠ j) : nnLt vecs q i j := by
  rcases h with h | ⟨h1, h2⟩
  · exact Or.inl h
  · exact Or.inr ⟨h1, lt_of_le_of_ne h2 hne⟩

/-- A key listed among an association list's keys has a binding. -/
lemma lookup_of_mem_keys {α : Type} :
    ∀ (dm : List (Nat × α)) (i : Nat), i ∈ dm.map Prod.fst →
      ∃ a, dm.lookup i = some a
  | [], _, h => absurd h (by simp)
  | (key, v) :: tl, i, h => by
    by_cases hik : i = key
    · exact ⟨v, by simp [List.lookup, hik]⟩
    · have h' : i ∈ tl.map Prod.fst := by
        rcases List.mem_cons.mp h with h0 | h0
        · exact absurd h0 hik
        · exact h0
      obtain ⟨a, ha⟩ := lookup_of_mem_keys tl i h'
      have hik' : (i == key) = false := beq_eq_false_iff_ne.mpr hik
      exact ⟨a, by simp [List.lookup, hik', ha]⟩

/-- When every requested id has a payload, the result loop succeeds and
pairs each id's payload with its distance, in order. -/
lemma buildResults_ok {α : Type} (dm : List (Nat × α)) (g : Nat → ℚ) :
    ∀ sel : List Nat, (∀ i ∈ sel, ∃ a, dm.lookup i = some a) →
      ∃ r, buildResults dm g sel = .ok r ∧
        List.Forall₂ (fun i (pr : α × ℚ) =>
          dm.lookup i = some pr.1 ∧ pr.2 = g i) sel r := by
  intro sel
  induction sel with
  | nil => exact fun _ => ⟨[], rfl, List.Forall₂.nil⟩
  | cons i tl ih =>
    intro hall
    obtain ⟨a, ha⟩ := hall i (List.mem_cons_self i tl)
    obtain ⟨r, hr, hf⟩ := ih (fun j hj => hall j (List.mem_cons_of_mem _ hj))
    refine ⟨(a, g i) :: r, ?_, List.Forall₂.cons ⟨ha, rfl⟩ hf⟩
    simp only [buildResults, ha, hr]

/-- Claim C1: on a well-formed store, `search` with a query of the index
dimension and `k ≥ 1` succeeds and returns the (payload, squared
distance) pairs of a selection `sel` of stored ids such that: the
selection has `min k n` elements (all stored entries when the store
holds fewer than `k`); every selected id is a valid position; the
selection is strictly ordered by ascending squared Euclidean distance
with ties broken by ascending id (`nnLt`); and it is optimal — every
non-selected stored vector is strictly farther (in the same order) than
every selected one. -/
theorem search_returns_nearest_sorted {α : Type} (s : VectorStore α)
    (q : Vec) (k : Int) (hInv : StoreInv s) (hq : q.length = s.dimension)
    (hk : 1 ≤ k) :
    ∃ (sel : List Nat) (r : List (α × ℚ)),
      s.search q k = .ok r ∧
      List.Forall₂ (fun i (pr : α × ℚ) =>
        s.document_map.lookup i = some pr.1 ∧
        pr.2 = sqDist q (s.index.vecs.getD i [])) sel r ∧
      sel.length = min k.toNat s.index.vecs.length ∧
      (∀ i ∈ sel, i < s.index.vecs.length) ∧
      List.Pairwise (nnLt s.index.vecs q) sel ∧
      (∀ i < s.index.vecs.length, i ∉ sel →
        ∀ j ∈ sel, nnLt s.index.vecs q j i) ∧
      (s.index.vecs.length ≤ k.toNat →
        ∀ i < s.index.vecs.length, i ∈ sel) := by
  obtain ⟨c1, c2, c3, c4, c5⟩ := hInv
  set n := s.index.vecs.length with hn
  set sorted :=
    List.insertionSort (nnLe s.index.vecs q) (List.range n) with hsorted_def
  have hperm : sorted.Perm (List.range n) := List.perm_insertionSort _ _
  have hsort : List.Sorted (nnLe s.index.vecs q) sorted :=
    List.sorted_insertionSort _ _
  have hnodup : sorted.Nodup := (hperm.nodup_iff).mpr (List.nodup_range n)
  set sel := sorted.take k.toNat with hsel_def
  have hmemsel : ∀ i ∈ sel, i < n := fun i hi =>
    List.mem_range.mp (hperm.mem_iff.mp ((List.take_sublist _ _).subset hi))
  have hq' : ¬ (q.length ≠ s.index.d) := fun hne => hne (by rw [hq, c4])
  have hk' : ¬ (k ≤ 0) := by omega
  have hsearch : s.search q k = buildResults s.document_map
      (fun i => sqDist q (s.index.vecs.getD i [])) sel := by
    unfold VectorStore.search
    rw [if_neg hq', if_neg hk']
    rfl
  have hlookup : ∀ i ∈ sel, ∃ a, s.document_map.lookup i = some a := by
    intro i hi
    apply lookup_of_mem_keys
    rw [c2, List.mem_range, ← c1]
    exact hmemsel i hi
  obtain ⟨r, hr, hforall⟩ := buildResults_ok s.document_map _ sel hlookup
  refine ⟨sel, r, ?_, hforall, ?_, hmemsel, ?_, ?_, ?_⟩
  · rw [hsearch, hr]
  · rw [hsel_def, List.length_take, hperm.length_eq, List.length_range]
  · have hpw : List.Pairwise (nnLe s.index.vecs q) sel :=
      List.Pairwise.sublist (List.take_sublist _ _) hsort
    have hnd : sel.Nodup :=
      List.Nodup.sublist (List.take_sublist _ _) hnodup
    exact (hpw.and hnd).imp (fun hab => nnLe_ne_lt hab.1 hab.2)
  · intro i hi hnot j hj
    have hsplit : sorted = sorted.take k.toNat ++ sorted.drop k.toNat :=
      (List.take_append_drop _ _).symm
    have hisorted : i ∈ sorted := hperm.mem_iff.mpr (List.mem_range.mpr hi)
    have hidrop : i ∈ sorted.drop k.toNat := by
      rw [hsplit] at hisorted
      rcases List.mem_append.mp hisorted with h0 | h0
      · exact absurd h0 hnot
      · exact h0
    have hps : List.Pairwise (nnLe s.index.vecs q)
        (sorted.take k.toNat ++ sorted.drop k.toNat) := by
      rw [← hsplit]
      exact hsort
    have hle := (List.pairwise_append.mp hps).2.2 j hj i hidrop
    have hne : j ≠ i := fun hEq => hnot (hEq ▸ hj)
    exact nnLe_ne_lt hle hne
  · intro hkn i hi
    have hall : sel = sorted := List.take_of_length_le
      (by rw [hperm.length_eq, List.length_range]; exact hkn)
    rw [hall]
    exact hperm.mem_iff.mpr (List.mem_range.mpr hi)

/-- A well-formed two-entry 1-dimensional store for the search witness. -/
def searchStore : VectorStore ℕ := ⟨1, ⟨1, [[0], [2]]⟩, [(0, 10), (1, 20)], 2⟩

/-- Concrete instance of `search_returns_nearest_sorted` on a two-entry
store with `k = 1`. -/
theorem search_returns_nearest_sorted_witness :
    StoreInv searchStore ∧
    ∃ (sel : List Nat) (r : List (ℕ × ℚ)),
      searchStore.search [1] 1 = .ok r ∧
      List.Forall₂ (fun i (pr : ℕ × ℚ) =>
        searchStore.document_map.lookup i = some pr.1 ∧
        pr.2 = sqDist [1] (searchStore.index.vecs.getD i [])) sel r ∧
      sel.length = min (1 : Int).toNat searchStore.index.vecs.length ∧
      (∀ i ∈ sel, i < searchStore.index.vecs.length) ∧
      List.Pairwise (nnLt searchStore.index.vecs [1]) sel ∧
      (∀ i < searchStore.index.vecs.length, i ∉ sel →
        ∀ j ∈ sel, nnLt searchStore.index.vecs [1] j i) ∧
      (searchStore.index.vecs.length ≤ (1 : Int).toNat →
        ∀ i < searchStore.index.vecs.length, i ∈ sel) :=
  ⟨by decide, search_returns_nearest_sorted searchStore [1] 1 (by decide)
    (by decide) (by decide)⟩

/-- The attention mask sums to the number of real tokens. -/
lemma maskOf_sum (L len : Nat) : (maskOf L len).sum = (len : ℚ) := by
  simp [maskOf, List.sum_append, List.sum_replicate, nsmul_eq_mul]

/-- The attention mask is 1 on real positions. -/
lemma maskOf_getD_lt {L len j : Nat} (h : j < len) :
    (maskOf L len).getD j 0 = 1 := by
  simp [maskOf, List.getD_eq_getElem?_getD, List.getElem?_append,
    List.getElem?_replicate, List.length_replicate, h]

/-- The attention mask is 0 on padding positions. -/
lemma maskOf_getD_ge {L len j : Nat} (h : len ≤ j) :
    (maskOf L len).getD j 0 = 0 := by
  rw [maskOf, List.getD_eq_getElem?_getD, List.getElem?_append]
  rw [if_neg (by simp [List.length_replicate]; omega)]
  rw [List.getElem?_replicate]
  split <;> rfl

/-- Every row is at most as long as the padded batch width. -/
lemma le_maxLen {rows : List (List Nat)} {r : List Nat} (h : r ∈ rows) :
    r.length ≤ maxLen rows := by
  induction rows with
  | nil => cases h
  | cons x xs ih =>
    rcases List.mem_cons.mp h with rfl | h'
    · exact Nat.le_max_left _ _
    · exact le_trans (ih h') (Nat.le_max_right _ _)

/-- Mask-weighted mean pooling only sees the real positions: pooling a
row under the mask of `la` real tokens in a batch of width `L` equals
pooling any row that agrees on the first `la` positions under the
unpadded mask. -/
lemma meanPool_masked (H : Nat) (out w : List (List ℚ)) (L la : Nat)
    (hout : ∀ j, j < la → out.getD j [] = w.getD j []) :
    meanPool H out (maskOf L la) = meanPool H w (maskOf la la) := by
  unfold meanPool
  congr 1
  funext h
  rw [maskOf_sum, maskOf_sum]
  congr 1
  have hlen2 : (maskOf L la).length = la + (L - la) := by
    simp [maskOf, List.length_replicate]
  have hlen1 : (maskOf la la).length = la := by
    simp [maskOf, List.length_replicate]
  rw [hlen1, hlen2]
  have hbig : ∑ j ∈ Finset.range (la + (L - la)),
      (out.getD j []).getD h 0 * (maskOf L la).getD j 0
      = ∑ j ∈ Finset.range la,
        (out.getD j []).getD h 0 * (maskOf L la).getD j 0 := by
    symm
    apply Finset.sum_subset
      (Finset.range_subset.mpr (Nat.le_add_right la (L - la)))
    intro j _ hj1
    have hge : la ≤ j := by
      rcases Nat.lt_or_ge j la with hlt | hge
      · exact absurd (Finset.mem_range.mpr hlt) hj1
      · exact hge
    rw [maskOf_getD_ge hge, mul_zero]
  rw [hbig]
  apply Finset.sum_congr rfl
  intro j hj
  have hj' : j < la := Finset.mem_range.mp hj
  rw [maskOf_getD_lt hj', maskOf_getD_lt hj', hout j hj', mul_one]

/-- Claim C10: `get_embeddings` is batch-invariant.  For any encoding
capability whose transformer satisfies the attention-masking property
(`MaskLocal`: outputs at real positions depend only on the row's own
tokens, the property batching relies on), the embedding computed for a
text `a` inside the batch `[a, b]` equals the embedding computed for `a`
alone.  Over the exact rationals of this embedding the equality is
exact, which subsumes the claim's floating-point tolerance. -/
theorem embed_batch_invariant (e : Encoder) (g : List Nat → List (List ℚ))
    (hg : MaskLocal e g) (a b : String) :
    (getEmbeddings e [a, b]).getD 0 [] = (getEmbeddings e [a]).getD 0 [] := by
  have hget : ∀ (m : Nat) (f : Nat → List ℚ), 0 < m →
      ((List.range m).map f).getD 0 [] = f 0 := by
    intro m f hm
    cases m with
    | zero => omega
    | succ m' =>
      rw [List.range_succ_eq_map]
      rfl
  simp only [getEmbeddings, List.map_cons, List.map_nil, List.length_cons,
    List.length_nil]
  rw [hget 2 _ (by omega), hget 1 _ (by omega)]
  simp only [List.getD_cons_zero]
  have hla2 : (e.tokenizeOne a).length ≤
      maxLen [e.tokenizeOne a, e.tokenizeOne b] :=
    le_maxLen (List.mem_cons_self _ _)
  have hout2 : ∀ j, j < (e.tokenizeOne a).length →
      ((e.modelFun ([e.tokenizeOne a, e.tokenizeOne b].map
          (padTo e.padId (maxLen [e.tokenizeOne a, e.tokenizeOne b])))).getD
        0 []).getD j [] = (g (e.tokenizeOne a)).getD j [] := by
    intro j hj
    have := hg [e.tokenizeOne a, e.tokenizeOne b]
      (maxLen [e.tokenizeOne a, e.tokenizeOne b]) 0 j
      (by simpa using hla2) (by simp) (by simpa using hj)
    simpa using this
  have hout1 : ∀ j, j < (e.tokenizeOne a).length →
      ((e.modelFun ([e.tokenizeOne a].map
          (padTo e.padId (maxLen [e.tokenizeOne a])))).getD 0 []).getD j []
        = (g (e.tokenizeOne a)).getD j [] := by
    intro j hj
    have := hg [e.tokenizeOne a] (maxLen [e.tokenizeOne a]) 0 j
      (by simpa using le_maxLen (List.mem_cons_self (e.tokenizeOne a) []))
      (by simp) (by simpa using hj)
    simpa using this
  exact congrArg e.normalizeRow
    ((meanPool_masked e.hidden _ (g (e.tokenizeOne a)) _ _ hout2).trans
      (meanPool_masked e.hidden _ (g (e.tokenizeOne a)) _ _ hout1).symm)

/-- A concrete encoding capability for the witness: each text tokenizes
to one token per character and the transformer returns no rows, which
satisfies the masking property with batch-independent outputs `g` empty. -/
def constEncoder : Encoder :=
  ⟨1, 0, fun t => List.replicate t.length 1, fun _ => [], fun v => v⟩

/-- Concrete instance of `embed_batch_invariant`: the masking hypothesis
is discharged for `constEncoder` and two concrete texts. -/
theorem embed_batch_invariant_witness :
    MaskLocal constEncoder (fun _ => []) ∧
    (getEmbeddings constEncoder ["xy", "zzz"]).getD 0 [] =
      (getEmbeddings constEncoder ["xy"]).getD 0 [] :=
  ⟨fun _ _ _ _ _ _ _ => rfl,
    embed_batch_invariant constEncoder (fun _ => [])
      (fun _ _ _ _ _ _ _ => rfl) "xy" "zzz"⟩
